import Mathlib

/-!
Shallow embedding of the LocalFileStore storage adapter
(src/core/server/adapters/storage/LocalFileStorage.js).

The adapter runs on Node; the embedding models, at the level the adapter
uses them:
* the POSIX `path` primitives (`path.join`, `path.relative`, `path.sep`),
  working on character lists split at forward slashes and normalized the
  way Node's `normalizeString` does (empty and `.` segments dropped, `..`
  popping one segment, never rising above the root of an absolute path);
* the `fs-extra` operations (`readFile`, `writeFile`, `copy`, `stat`) over
  an association-list file system paired with a per-path error override
  table that models environmental failures such as permission errors;
* the `@tryghost/errors` objects by a record holding the fields the
  adapter actually sets (kind, message, wrapped error, code, property);
* the template interpolation of `@tryghost/tpl` by writing out the two
  interpolated message strings directly.
-/

/-- File content: a list of byte values. -/
abbrev Bytes := List Nat

/-- Split a character list into path segments at every forward slash,
the way Node's POSIX path implementation tokenizes a path. -/
def splitSlash : List Char → List (List Char)
  | [] => [[]]
  | c :: cs =>
    if c = '/' then [] :: splitSlash cs
    else
      match splitSlash cs with
      | g :: gs => (c :: g) :: gs
      | [] => [[c]]

/-- Join segments back with forward slashes (no leading or trailing slash). -/
def joinSegs : List (List Char) → List Char
  | [] => []
  | [s] => s
  | s :: rest => s ++ '/' :: joinSegs rest

/-- The path segment consisting of a single dot. -/
def dotSeg : List Char := ['.']

/-- The parent-directory path segment. -/
def dotDotSeg : List Char := ['.', '.']

/-- Core of Node's `normalizeString`: processes segments left to right;
`acc` holds the already-emitted segments in reverse order.  Empty and `.`
segments are dropped; `..` pops the previous segment, except that on an
absolute path it cannot rise above the root and on a relative path
leading `..` segments are kept. -/
def normCore (abs : Bool) (acc : List (List Char)) : List (List Char) → List (List Char)
  | [] => acc
  | s :: rest =>
    if s = [] ∨ s = dotSeg then normCore abs acc rest
    else if s = dotDotSeg then
      match acc with
      | [] => normCore abs (if abs then [] else [dotDotSeg]) rest
      | a :: acc2 =>
        if a = dotDotSeg then normCore abs (dotDotSeg :: a :: acc2) rest
        else normCore abs acc2 rest
    else normCore abs (s :: acc) rest

/-- Normalized segment list of a path given as raw segments. -/
def normSegs (abs : Bool) (l : List (List Char)) : List (List Char) :=
  (normCore abs [] l).reverse

/-- Render a normalized segment list back to a string, as Node does:
absolute paths get a leading slash, an empty relative path renders as `.`. -/
def renderPath (abs : Bool) (segs : List (List Char)) : String :=
  if abs then ⟨'/' :: joinSegs segs⟩
  else if segs = [] then ⟨dotSeg⟩ else ⟨joinSegs segs⟩

/-- Drop the empty and `.` segments of a raw segment list (what
normalization does to a segment list free of `..`). -/
def keepSegs : List (List Char) → List (List Char)
  | [] => []
  | s :: rest => if s = [] ∨ s = dotSeg then keepSegs rest else s :: keepSegs rest

/-- Whether a path string is absolute (starts with a slash). -/
def strHeadSlash (s : String) : Bool :=
  match s.data with
  | c :: _ => c == '/'
  | [] => false

/-- Model of `path.join(a, b)` on a POSIX host: concatenate with a slash,
then normalize. -/
def posixJoin (a b : String) : String :=
  renderPath (strHeadSlash a) (normSegs (strHeadSlash a) (splitSlash (a.data ++ '/' :: b.data)))

/-- Length of the common prefix of two segment lists. -/
def commonLen : List (List Char) → List (List Char) → Nat
  | a :: as2, b :: bs2 => if a = b then commonLen as2 bs2 + 1 else 0
  | _, _ => 0

/-- Model of `path.relative(f, t)` on a POSIX host for absolute arguments:
normalize both, drop the common prefix, then one `..` per remaining
segment of `f` followed by the remaining segments of `t`. -/
def posixRelative (f t : String) : String :=
  let fsegs := normSegs true (splitSlash f.data)
  let tsegs := normSegs true (splitSlash t.data)
  let k := commonLen fsegs tsegs
  ⟨joinSegs (List.replicate (fsegs.length - k) dotDotSeg ++ tsegs.drop k)⟩

/-- Source `read`, line 163: `options.path.replace(/\/$|\\$/, '')` removes
one trailing slash or backslash. -/
def stripTrailing (s : String) : String :=
  match s.data.reverse with
  | c :: rest => if c = '/' ∨ c = '\\' then ⟨rest.reverse⟩ else s
  | [] => s

/-- Whether the string ends with a backslash. -/
def endsWithBackslash (s : String) : Bool :=
  match s.data.reverse with
  | c :: _ => c == '\\'
  | [] => false

/-- Whether the string ends with a forward slash. -/
def endsWithSlash (s : String) : Bool :=
  match s.data.reverse with
  | c :: _ => c == '/'
  | [] => false

/-- Whether any slash-separated segment of the string is `..`. -/
def hasDotDot (s : String) : Bool :=
  (splitSlash s.data).any (fun g => g == dotDotSeg)

/-- Boolean test that the first list starts the second. -/
def leadsB : List Char → List Char → Bool
  | [], _ => true
  | _ :: _, [] => false
  | a :: as2, b :: bs2 => a == b && leadsB as2 bs2

/-- Boolean test that `n` occurs contiguously inside the second list. -/
def hasSub (n : List Char) : List Char → Bool
  | [] => n == []
  | c :: t => leadsB n (c :: t) || hasSub n t

/-- `needle` occurs contiguously inside `hay`. -/
def containsSub (needle hay : String) : Bool := hasSub needle.data hay.data

/-- `p` lies inside the directory tree rooted at `root`: it is the root
itself or extends it past a slash. -/
def confined (root p : String) : Bool :=
  p == root || leadsB (root.data ++ ['/']) p.data

/-- A low-level file-system error as Node reports it, identified by its
`code` field (`ENOENT`, `EACCES`, ...). -/
structure FsError where
  code : String
deriving DecidableEq, Repr

/-- Model file system: stored files plus a per-path error override table
modelling environmental failures (permissions, long names, ...). -/
structure FS where
  files : List (String × Bytes)
  errs : List (String × String)
deriving DecidableEq, Repr

/-- First-match association-list lookup. -/
def fsLookup {α : Type} : List (String × α) → String → Option α
  | [], _ => none
  | (k, v) :: rest, q => if k = q then some v else fsLookup rest q

def codeENOENT : String := "ENOENT"

def codeENOTDIR : String := "ENOTDIR"

def codeENAMETOOLONG : String := "ENAMETOOLONG"

def codeEACCES : String := "EACCES"

/-- Model of `fs.readFile`: an error override at the path fails with that
code; otherwise a stored file is returned and a missing one is `ENOENT`. -/
def readFile (fs : FS) (p : String) : Except FsError Bytes :=
  match fsLookup fs.errs p with
  | some c => .error ⟨c⟩
  | none =>
    match fsLookup fs.files p with
    | some b => .ok b
    | none => .error ⟨codeENOENT⟩

/-- Model of `fs.writeFile`: an error override at the path fails with that
code; otherwise the file is created or overwritten. -/
def writeFile (fs : FS) (p : String) (b : Bytes) : Except FsError FS :=
  match fsLookup fs.errs p with
  | some c => .error ⟨c⟩
  | none => .ok ⟨(p, b) :: fs.files, fs.errs⟩

def copySamePathCode : String := "ERR_FS_CP_EINVAL"

/-- Model of `fs-extra`'s `copy`: source and destination must differ,
then the source is read and the destination written. -/
def copyFile (fs : FS) (src dest : String) : Except FsError FS :=
  if src = dest then .error ⟨copySamePathCode⟩
  else
    match readFile fs src with
    | .error e => .error e
    | .ok b => writeFile fs dest b

/-- Model of `fs.stat`: an error override at the path fails with that
code; otherwise it succeeds exactly on stored files. -/
def statFs (fs : FS) (p : String) : Except FsError Unit :=
  match fsLookup fs.errs p with
  | some c => .error ⟨c⟩
  | none => if (fsLookup fs.files p).isSome then .ok () else .error ⟨codeENOENT⟩

/-- Whether an `Except` computation succeeded. -/
def isOkB {ε α : Type} : Except ε α → Bool
  | .ok _ => true
  | .error _ => false

/-- The four error kinds of `@tryghost/errors` that the adapter constructs
(`GhostError` is the generic storage error). -/
inductive ErrKind
  | notFound
  | badRequest
  | noPermission
  | ghost
deriving DecidableEq, Repr

/-- The error object the static-serving primitive hands to the serve
callback: a status-code-like field and the unresolved path. -/
structure ServeError where
  statusCode : Nat
  path : String
deriving DecidableEq, Repr

/-- An original error wrapped into a domain error: either a file-system
error (read path) or a serving-primitive error (serve path). -/
inductive WrappedErr
  | fsErr (e : FsError)
  | serveErr (e : ServeError)
deriving DecidableEq, Repr

/-- A `@tryghost/errors` object, restricted to the fields the adapter
sets: kind, message, wrapped original error, code and property. -/
structure GhostErrorObj where
  kind : ErrKind
  message : Option String := none
  err : Option WrappedErr := none
  code : Option String := none
  property : Option String := none
deriving DecidableEq, Repr

/-- A promise rejection value: either one of the typed domain error
objects or a bare value such as the string `delete` rejects with. -/
inductive Rejection
  | typedErr (e : GhostErrorObj)
  | rawString (s : String)
deriving DecidableEq, Repr

/-- Whether a rejection value is one of the typed domain error objects. -/
def Rejection.isTypedDomainError : Rejection → Bool
  | .typedErr _ => true
  | .rawString _ => false

def imageNotFoundMsg : String := "Image not found"

def imageNotFoundPre : String := "Image not found: "

def cannotReadImagePre : String := "Could not read image: "

/-- Interpolation of the template `Image not found: ` followed by `img`
(the `messages.imageNotFoundWithRef` template fed through `tpl`). -/
def imageNotFoundWithRef (img : String) : String := imageNotFoundPre ++ img

/-- Interpolation of the template `Could not read image: ` followed by
`img` (the `messages.cannotReadImage` template fed through `tpl`). -/
def cannotReadImage (img : String) : String := cannotReadImagePre ++ img

def staticFileNotFoundCode : String := "STATIC_FILE_NOT_FOUND"

def notImplementedMsg : String := "not implemented"

def slashStr : String := "/"

def backslashStr : String := "\\"

/-- Modelled from the spec: `urlUtils.STATIC_IMAGE_URL_PREFIX` lives in
shared/url-utils, which is not under src/; the spec calls it a fixed
static-image URL path segment. -/
def staticImageUrlPrefix : String := "content/images"

/-- Modelled from the spec: `urlUtils.urlJoin('/', subdir, pfx, rel)` with
`urlUtils.getSubdir()` is code of shared/url-utils, not under src/; per
spec section 6 the output shape is `/[subdir/]<static-image-prefix>/<rel>`,
forward-slash-delimited. -/
def urlJoin (subdir pfx rel : String) : String :=
  slashStr ++ (if subdir = "" then ("") else subdir ++ slashStr) ++ pfx ++ slashStr ++ rel

/-- The `.replace(new RegExp(`\\${path.sep}`, 'g'), '/')` step: rewrite
every occurrence of the host path separator to a forward slash. -/
def replaceSep (sep : Char) (s : String) : String :=
  ⟨s.data.map (fun c => if c = sep then '/' else c)⟩

/-- The full public-URL computation shared by `saveRaw` and `save`,
with the host path separator `sep` abstracted (`/` on POSIX, `\` on
Windows). -/
def fullUrlFor (sep : Char) (subdir rel : String) : String :=
  replaceSep sep (urlJoin subdir staticImageUrlPrefix rel)

/-- The adapter instance: the configured content root (`this.storagePath`)
and the application subdirectory used when building public URLs. -/
structure LocalFileStore where
  storagePath : String
  subdir : String
deriving DecidableEq, Repr

/-- The express image object as far as the adapter touches it. -/
structure Image where
  path : String
  name : String
deriving DecidableEq, Repr

/-- The argument object of `read`. -/
structure ReadOptions where
  path : Option String := none
deriving DecidableEq, Repr

/-- The file-system path `saveRaw` writes: `path.join(this.storagePath,
targetPath)` (source line 37). -/
def saveRawTarget (root targetPath : String) : String := posixJoin root targetPath

/-- The file-system path `read` reads: the storage root joined with the
trailing-separator-stripped relative path (source lines 163-165). -/
def readTarget (root p : String) : String := posixJoin root (stripTrailing p)

/-- The file-system path `exists` stats: `path.join(targetDir ||
this.storagePath, fileName)` (source line 87); a missing or empty
target directory falls back to the storage root as JS `||` does. -/
def existsTarget (root fileName : String) (targetDir : Option String) : String :=
  posixJoin
    (match targetDir with
      | some d => if d = "" then root else d
      | none => root)
    fileName

/-- `saveRaw(buffer, targetPath)`: write the buffer at the joined path and
return the public URL (directory creation always succeeds in the model;
write errors propagate unclassified, as in the source). -/
def saveRaw (store : LocalFileStore) (fs : FS) (buffer : Bytes) (targetPath : String) :
    Except FsError (FS × String) :=
  match writeFile fs (saveRawTarget store.storagePath targetPath) buffer with
  | .error e => .error e
  | .ok fs2 => .ok (fs2, fullUrlFor '/' store.subdir targetPath)

/-- The target directory `save` resolves: the caller-supplied one when
truthy, otherwise the external dated-subdirectory helper applied to the
storage root (`targetDir = targetDir || this.getTargetDir(...)`). -/
def saveTargetDirOf (store : LocalFileStore) (getTargetDir : String → String)
    (targetDir : Option String) : String :=
  match targetDir with
  | some d => if d = "" then getTargetDir store.storagePath else d
  | none => getTargetDir store.storagePath

/-- `save(image, targetDir)`: resolve the target directory (external dated
helper when absent), resolve a unique destination (external helper), copy
the source file there, and return the public URL built from the
destination taken relative to the storage root.  The two external
`ghost-storage-base` helpers are passed in as functions. -/
def save (store : LocalFileStore) (getTargetDir : String → String)
    (getUniqueFileName : Image → String → String) (fs : FS) (image : Image)
    (targetDir : Option String) : Except FsError (FS × String) :=
  match copyFile fs image.path
      (getUniqueFileName image (saveTargetDirOf store getTargetDir targetDir)) with
  | .error e => .error e
  | .ok fs2 =>
    .ok (fs2, fullUrlFor '/' store.subdir
      (posixRelative store.storagePath
        (getUniqueFileName image (saveTargetDirOf store getTargetDir targetDir))))

/-- `exists(fileName, targetDir)`: stat the joined path, resolving to
`true` on success and `false` on any stat failure; the promise itself
never rejects (source lines 86-96). -/
def existsCheck (store : LocalFileStore) (fs : FS) (fileName : String)
    (targetDir : Option String) : Except Rejection Bool :=
  match statFs fs (existsTarget store.storagePath fileName targetDir) with
  | .ok _ => .ok true
  | .error _ => .ok false

/-- The callback the closure returned by `serve()` installs on the
static-serving primitive (source lines 124-142): `none` means the
primitive completed without error and `next` is called with no argument;
otherwise the error is classified by status code. -/
def serveCallback (err : Option ServeError) : Option GhostErrorObj :=
  match err with
  | none => none
  | some e =>
    if e.statusCode = 404 then
      some { kind := ErrKind.notFound, message := some imageNotFoundMsg,
             code := some staticFileNotFoundCode, property := some e.path }
    else if e.statusCode = 400 then
      some { kind := ErrKind.badRequest, err := some (WrappedErr.serveErr e) }
    else if e.statusCode = 403 then
      some { kind := ErrKind.noPermission, err := some (WrappedErr.serveErr e) }
    else
      some { kind := ErrKind.ghost, err := some (WrappedErr.serveErr e) }

/-- `delete()`: always rejects with the bare string `not implemented` and
touches nothing (source lines 150-152). -/
def deleteStored (fs : FS) : Except Rejection Unit × FS :=
  (Except.error (Rejection.rawString notImplementedMsg), fs)

/-- The error branch of `read` (source lines 169-190): classify the
file-system error by code, interpolating the stripped relative path into
the not-found and generic messages. -/
def classifyReadError (relPath : String) (e : FsError) : GhostErrorObj :=
  if e.code = codeENOENT ∨ e.code = codeENOTDIR then
    { kind := ErrKind.notFound, err := some (WrappedErr.fsErr e),
      message := some (imageNotFoundWithRef relPath) }
  else if e.code = codeENAMETOOLONG then
    { kind := ErrKind.badRequest, err := some (WrappedErr.fsErr e) }
  else if e.code = codeEACCES then
    { kind := ErrKind.noPermission, err := some (WrappedErr.fsErr e) }
  else
    { kind := ErrKind.ghost, err := some (WrappedErr.fsErr e),
      message := some (cannotReadImage relPath) }

/-- The raw relative path `read` starts from: `options = options || {}`
followed by `options.path || ''`. -/
def rawPathOf (options : Option ReadOptions) : String :=
  match options with
  | some o =>
    match o.path with
    | some s => s
    | none => ("")
  | none => ("")

/-- `read(options)`: default a missing argument and a missing path field
to the empty string, strip one trailing separator (mutating
`options.path` in place - the second component is the mutated options
object the caller is left with), join with the storage root, read, and
classify any failure. -/
def readStored (store : LocalFileStore) (fs : FS) (options : Option ReadOptions) :
    Except GhostErrorObj Bytes × ReadOptions :=
  (match readFile fs (readTarget store.storagePath (rawPathOf options)) with
    | .ok bytes => Except.ok bytes
    | .error e => Except.error (classifyReadError (stripTrailing (rawPathOf options)) e),
   { path := some (stripTrailing (rawPathOf options)) })

/-! ### Helper lemmas about the path model -/

theorem strDataAppend (a b : String) : (a ++ b).data = a.data ++ b.data := by
  cases a
  cases b
  rfl

theorem splitSlash_ne_nil (l : List Char) : splitSlash l ≠ [] := by
  induction l with
  | nil => simp [splitSlash]
  | cons c cs ih =>
    simp only [splitSlash]
    split
    · simp
    · split
      · simp
      · simp

theorem splitSlash_append (a b : List Char) :
    splitSlash (a ++ '/' :: b) = splitSlash a ++ splitSlash b := by
  induction a with
  | nil => simp [splitSlash]
  | cons c cs ih =>
    by_cases hc : c = '/'
    · subst hc
      simp [splitSlash, ih]
    · rcases h : splitSlash cs with _ | ⟨g, gs⟩
      · exact absurd h (splitSlash_ne_nil cs)
      · simp only [List.cons_append, splitSlash, if_neg hc, List.append_eq]
        rw [ih, h]
        simp

theorem splitSlash_single (l : List Char) (h : ∀ c ∈ l, c ≠ '/') : splitSlash l = [l] := by
  induction l with
  | nil => simp [splitSlash]
  | cons c cs ih =>
    have hc : c ≠ '/' := h c (by simp)
    have ih2 := ih (fun x hx => h x (by simp [hx]))
    simp [splitSlash, hc, ih2]

theorem joinSegs_cons_cons (s r : List Char) (rest : List (List Char)) :
    joinSegs (s :: r :: rest) = s ++ '/' :: joinSegs (r :: rest) := rfl

theorem joinSegs_append (xs ys : List (List Char)) (hx : xs ≠ []) (hy : ys ≠ []) :
    joinSegs (xs ++ ys) = joinSegs xs ++ '/' :: joinSegs ys := by
  induction xs with
  | nil => simp at hx
  | cons s rest ih =>
    cases rest with
    | nil =>
      cases ys with
      | nil => simp at hy
      | cons y ys2 => simp [joinSegs]
    | cons r rest2 =>
      have hstep := ih (by simp)
      simp only [List.cons_append, joinSegs_cons_cons]
      rw [List.cons_append] at hstep
      rw [hstep]
      simp

theorem splitSlash_joinSegs (segs : List (List Char)) (hne : segs ≠ [])
    (h : ∀ s ∈ segs, ∀ c ∈ s, c ≠ '/') : splitSlash (joinSegs segs) = segs := by
  induction segs with
  | nil => simp at hne
  | cons s rest ih =>
    cases rest with
    | nil => exact splitSlash_single s (h s (by simp))
    | cons r rest2 =>
      have hr := ih (by simp) (fun x hx => h x (List.mem_cons_of_mem s hx))
      rw [joinSegs_cons_cons, splitSlash_append, splitSlash_single s (h s (by simp)), hr]
      simp

theorem normCore_append (abs : Bool) (acc xs ys : List (List Char)) :
    normCore abs acc (xs ++ ys) = normCore abs (normCore abs acc xs) ys := by
  induction xs generalizing acc with
  | nil => simp [normCore]
  | cons s rest ih =>
    by_cases h1 : s = [] ∨ s = dotSeg
    · simp only [List.cons_append, normCore, if_pos h1]
      exact ih acc
    · by_cases h2 : s = dotDotSeg
      · cases acc with
        | nil =>
          simp only [List.cons_append, normCore, if_neg h1, if_pos h2]
          exact ih _
        | cons a acc2 =>
          by_cases h3 : a = dotDotSeg
          · simp only [List.cons_append, normCore, if_neg h1, if_pos h2, if_pos h3]
            exact ih _
          · simp only [List.cons_append, normCore, if_neg h1, if_pos h2, if_neg h3]
            exact ih _
      · simp only [List.cons_append, normCore, if_neg h1, if_neg h2]
        exact ih _

theorem normCore_noDotDot (abs : Bool) (acc segs : List (List Char))
    (h : ∀ s ∈ segs, s ≠ dotDotSeg) :
    normCore abs acc segs = (keepSegs segs).reverse ++ acc := by
  induction segs generalizing acc with
  | nil => simp [normCore, keepSegs]
  | cons s rest ih =>
    have hs : s ≠ dotDotSeg := h s (by simp)
    have hrest : ∀ x ∈ rest, x ≠ dotDotSeg := fun x hx => h x (by simp [hx])
    by_cases h1 : s = [] ∨ s = dotSeg
    · simp only [normCore, if_pos h1, keepSegs]
      exact ih acc hrest
    · simp only [normCore, if_neg h1, if_neg hs, keepSegs]
      rw [ih (s :: acc) hrest]
      simp

theorem keepSegs_clean (segs : List (List Char))
    (h : ∀ s ∈ segs, s ≠ [] ∧ s ≠ dotSeg) : keepSegs segs = segs := by
  induction segs with
  | nil => rfl
  | cons s rest ih =>
    have hs := h s (by simp)
    have hrest := ih (fun x hx => h x (by simp [hx]))
    have : ¬(s = [] ∨ s = dotSeg) := by
      rintro (h1 | h1)
      · exact hs.1 h1
      · exact hs.2 h1
    simp [keepSegs, this, hrest]

theorem normCore_clean (abs : Bool) (acc segs : List (List Char))
    (h : ∀ s ∈ segs, s ≠ [] ∧ s ≠ dotSeg ∧ s ≠ dotDotSeg) :
    normCore abs acc segs = segs.reverse ++ acc := by
  rw [normCore_noDotDot abs acc segs (fun s hs => (h s hs).2.2),
    keepSegs_clean segs (fun s hs => ⟨(h s hs).1, (h s hs).2.1⟩)]

theorem leadsB_append_self (a t : List Char) : leadsB a (a ++ t) = true := by
  induction a with
  | nil => rfl
  | cons c cs ih => simp [leadsB, ih]

theorem hasSub_append_self (pre s : List Char) : hasSub s (pre ++ s) = true := by
  induction pre with
  | nil =>
    cases s with
    | nil => rfl
    | cons c t =>
      have h : leadsB (c :: t) (c :: t) = true := by
        have := leadsB_append_self (c :: t) []
        simpa using this
      simp [hasSub, h]
  | cons c pre2 ih => simp [hasSub, ih]

theorem containsSub_append (pre s : String) : containsSub s (pre ++ s) = true := by
  unfold containsSub
  rw [strDataAppend]
  exact hasSub_append_self pre.data s.data

theorem strMkData (l : List Char) : (String.mk l).data = l := rfl

theorem strMkEta (s : String) : (⟨s.data⟩ : String) = s := rfl

theorem stripTrailing_no_sep (s : String) (h1 : endsWithSlash s = false)
    (h2 : endsWithBackslash s = false) : stripTrailing s = s := by
  rcases hs : s.data.reverse with _ | ⟨c, rest⟩
  · simp [stripTrailing, hs]
  · simp only [endsWithSlash, hs] at h1
    simp only [endsWithBackslash, hs] at h2
    have hc1 : c ≠ '/' := by simpa using h1
    have hc2 : c ≠ '\\' := by simpa using h2
    simp [stripTrailing, hs, hc1, hc2]

theorem stripTrailing_concat (s : String) (c : Char) (hc : c = '/' ∨ c = '\\') :
    stripTrailing ⟨s.data ++ [c]⟩ = s := by
  have hrev : (String.mk (s.data ++ [c])).data.reverse = c :: s.data.reverse := by
    simp [strMkData]
  simp [stripTrailing, hrev, hc, strMkEta]

theorem strip_append_slash (s : String) : stripTrailing (s ++ slashStr) = s := by
  have he : s ++ slashStr = (⟨s.data ++ ['/']⟩ : String) := by
    cases s
    rfl
  rw [he, stripTrailing_concat s '/' (Or.inl rfl)]

theorem strip_append_backslash (s : String) : stripTrailing (s ++ backslashStr) = s := by
  have he : s ++ backslashStr = (⟨s.data ++ ['\\']⟩ : String) := by
    cases s
    rfl
  rw [he, stripTrailing_concat s '\\' (Or.inr rfl)]

theorem posixJoin_stripTrailing (a p : String) (h : endsWithBackslash p = false) :
    posixJoin a (stripTrailing p) = posixJoin a p := by
  rcases hs : p.data.reverse with _ | ⟨c, rest⟩
  · have : stripTrailing p = p := by simp [stripTrailing, hs]
    rw [this]
  · by_cases hc : c = '/'
    · subst hc
      have hp : p.data = rest.reverse ++ ['/'] := by
        have h2 := congrArg List.reverse hs
        simpa using h2
      have hstrip : (stripTrailing p).data = rest.reverse := by
        simp [stripTrailing, hs, strMkData]
      unfold posixJoin
      have key : splitSlash (a.data ++ '/' :: p.data)
          = splitSlash (a.data ++ '/' :: (stripTrailing p).data) ++ [[]] := by
        rw [hp, hstrip]
        have hassoc : a.data ++ '/' :: (rest.reverse ++ ['/'])
            = (a.data ++ '/' :: rest.reverse) ++ '/' :: [] := by simp
        rw [hassoc, splitSlash_append]
        simp [splitSlash]
      rw [key]
      unfold normSegs
      rw [normCore_append]
      simp [normCore]
    · have hcb : c ≠ '\\' := by
        simp only [endsWithBackslash, hs] at h
        simpa using h
      have : stripTrailing p = p := by simp [stripTrailing, hs, hc, hcb]
      rw [this]

theorem fsLookup_cons_self {α : Type} (k : String) (v : α) (l : List (String × α)) :
    fsLookup ((k, v) :: l) k = some v := by simp [fsLookup]

theorem fsLookup_cons_ne {α : Type} (k q : String) (v : α) (l : List (String × α))
    (h : k ≠ q) : fsLookup ((k, v) :: l) q = fsLookup l q := by simp [fsLookup, h]

theorem writeFile_ok (fs fs2 : FS) (p : String) (b : Bytes)
    (h : writeFile fs p b = Except.ok fs2) :
    fs2 = ⟨(p, b) :: fs.files, fs.errs⟩ ∧ fsLookup fs.errs p = none := by
  unfold writeFile at h
  rcases he : fsLookup fs.errs p with _ | c
  · rw [he] at h
    injection h with h2
    exact ⟨h2.symm, rfl⟩
  · rw [he] at h
    simp at h

theorem readFile_write_same (fs : FS) (p : String) (b : Bytes)
    (he : fsLookup fs.errs p = none) :
    readFile ⟨(p, b) :: fs.files, fs.errs⟩ p = Except.ok b := by
  simp [readFile, he, fsLookup]

theorem hasDotDot_false (s : String) (h : hasDotDot s = false) :
    ∀ g ∈ splitSlash s.data, g ≠ dotDotSeg := by
  intro g hg hEq
  unfold hasDotDot at h
  rw [List.any_eq_false] at h
  exact h g hg (by simp [hEq])

theorem confined_posixJoin (rootSegs : List (List Char)) (root : String)
    (hroot : root.data = '/' :: joinSegs rootSegs)
    (hne : rootSegs ≠ [])
    (hclean : ∀ s ∈ rootSegs, s ≠ [] ∧ s ≠ dotSeg ∧ s ≠ dotDotSeg ∧ ∀ c ∈ s, c ≠ '/')
    (rel : String) (hrel : hasDotDot rel = false) :
    confined root (posixJoin root rel) = true := by
  have habs : strHeadSlash root = true := by
    simp [strHeadSlash, hroot]
  have hsplit : splitSlash (root.data ++ '/' :: rel.data)
      = [] :: (rootSegs ++ splitSlash rel.data) := by
    rw [hroot]
    have hassoc : ('/' :: joinSegs rootSegs) ++ '/' :: rel.data
        = '/' :: (joinSegs rootSegs ++ '/' :: rel.data) := by simp
    rw [hassoc]
    have hhead : splitSlash ('/' :: (joinSegs rootSegs ++ '/' :: rel.data))
        = [] :: splitSlash (joinSegs rootSegs ++ '/' :: rel.data) := by
      simp [splitSlash]
    rw [hhead, splitSlash_append,
      splitSlash_joinSegs rootSegs hne (fun s hs => (hclean s hs).2.2.2)]
  have hns : normSegs true (splitSlash (root.data ++ '/' :: rel.data))
      = rootSegs ++ keepSegs (splitSlash rel.data) := by
    rw [hsplit]
    unfold normSegs
    have h0 : normCore true [] (([] : List Char) :: (rootSegs ++ splitSlash rel.data))
        = normCore true [] (rootSegs ++ splitSlash rel.data) := by
      simp [normCore]
    rw [h0, normCore_append,
      normCore_clean true [] rootSegs
        (fun s hs => ⟨(hclean s hs).1, (hclean s hs).2.1, (hclean s hs).2.2.1⟩),
      normCore_noDotDot true _ _ (hasDotDot_false rel hrel)]
    simp
  unfold posixJoin
  rw [habs, hns]
  unfold renderPath
  simp only [if_pos]
  rcases hK : keepSegs (splitSlash rel.data) with _ | ⟨g, gs⟩
  · have hroot2 : (⟨'/' :: joinSegs (rootSegs ++ [])⟩ : String) = root := by
      cases root with
      | mk d =>
        simp only [strMkData] at hroot
        simp [hroot]
    rw [hroot2]
    simp [confined]
  · have hj : joinSegs (rootSegs ++ g :: gs)
        = joinSegs rootSegs ++ '/' :: joinSegs (g :: gs) :=
      joinSegs_append rootSegs (g :: gs) hne (by simp)
    unfold confined
    rw [strMkData, hroot, hj]
    have h2 : (('/' :: joinSegs rootSegs) ++ ['/']) ++ joinSegs (g :: gs)
        = '/' :: (joinSegs rootSegs ++ '/' :: joinSegs (g :: gs)) := by simp
    rw [← h2, leadsB_append_self]
    simp

/-! ### Claim theorems -/

/-- C1 (amended): for every byte buffer and relative path that does not
end with a backslash, a successful `saveRaw(buffer, P)` followed by
`read({path: P})` succeeds and returns exactly the saved bytes.  (For a
path ending in a backslash the trailing-separator strip in `read` sends
the lookup to a different file, see the counterexample.) -/
theorem saveRaw_read_roundtrip (store : LocalFileStore) (fs fs2 : FS) (buffer : Bytes)
    (targetPath url : String)
    (hb : endsWithBackslash targetPath = false)
    (hsave : saveRaw store fs buffer targetPath = Except.ok (fs2, url)) :
    (readStored store fs2 (some { path := some targetPath })).1 = Except.ok buffer := by
  unfold saveRaw at hsave
  rcases hw : writeFile fs (saveRawTarget store.storagePath targetPath) buffer with e | fs3
  · rw [hw] at hsave
    simp at hsave
  · rw [hw] at hsave
    simp only at hsave
    injection hsave with hpair
    obtain ⟨hfs3, herrs⟩ := writeFile_ok fs fs3 _ buffer hw
    have hfs2 : fs2 = ⟨(saveRawTarget store.storagePath targetPath, buffer) :: fs.files,
        fs.errs⟩ := by
      have := congrArg Prod.fst hpair
      simp at this
      rw [← this, hfs3]
    subst hfs2
    simp only [readStored, rawPathOf]
    have hrt : readTarget store.storagePath targetPath
        = saveRawTarget store.storagePath targetPath := by
      unfold readTarget saveRawTarget
      exact posixJoin_stripTrailing store.storagePath targetPath hb
    rw [hrt, readFile_write_same fs (saveRawTarget store.storagePath targetPath) buffer herrs]

/-- C1 witness: a concrete save/read round trip through the model. -/
theorem saveRaw_read_roundtrip_witness :
    endsWithBackslash ("2024/x.png") = false ∧
    saveRaw ⟨"/r", ""⟩ ⟨[], []⟩ ([3, 4]) ("2024/x.png")
        = Except.ok (⟨[(("/r/2024/x.png"), [3, 4])], []⟩, "/content/images/2024/x.png") ∧
    (readStored ⟨"/r", ""⟩ ⟨[(("/r/2024/x.png"), [3, 4])], []⟩
        (some { path := some ("2024/x.png") })).1 = Except.ok ([3, 4]) := by
  refine ⟨by decide, by rfl, ?_⟩
  exact saveRaw_read_roundtrip ⟨"/r", ""⟩ ⟨[], []⟩ ⟨[(("/r/2024/x.png"), [3, 4])], []⟩
    ([3, 4]) ("2024/x.png") ("/content/images/2024/x.png") (by decide) (by rfl)

/-- C1 counterexample: with the relative path `a\` (which ends in a
backslash), `saveRaw` succeeds and writes the file `a\` under the root,
but the immediately following `read({path: "a\"})` strips the backslash,
looks up `a` instead, and rejects with a NotFoundError - so the
round-trip claim fails as stated. -/
theorem saveRaw_read_roundtrip_counterexample :
    saveRaw ⟨"/r", ""⟩ ⟨[], []⟩ ([1]) ("a\\")
        = Except.ok (⟨[(("/r/a\\"), [1])], []⟩, "/content/images/a\\") ∧
    (readStored ⟨"/r", ""⟩ ⟨[(("/r/a\\"), [1])], []⟩ (some { path := some ("a\\") })).1
        = Except.error { kind := ErrKind.notFound
                         message := some ("Image not found: a")
                         err := some (WrappedErr.fsErr ⟨codeENOENT⟩) } :=
  ⟨rfl, rfl⟩

/-- C8 (amended): for a relative path that ends with neither a slash nor
a backslash, appending a trailing slash or a trailing backslash to the
read path changes nothing: the stripped effective path, the file-system
lookup and the full result coincide with the plain call. -/
theorem read_trailing_separator (store : LocalFileStore) (fs : FS) (P : String)
    (h1 : endsWithSlash P = false) (h2 : endsWithBackslash P = false) :
    readStored store fs (some { path := some (P ++ slashStr) })
        = readStored store fs (some { path := some P }) ∧
    readStored store fs (some { path := some (P ++ backslashStr) })
        = readStored store fs (some { path := some P }) := by
  have e1 : stripTrailing (P ++ slashStr) = P := strip_append_slash P
  have e2 : stripTrailing (P ++ backslashStr) = P := strip_append_backslash P
  have e3 : stripTrailing P = P := stripTrailing_no_sep P h1 h2
  constructor
  · simp only [readStored, readTarget, rawPathOf, e1, e3]
  · simp only [readStored, readTarget, rawPathOf, e2, e3]

/-- C8 witness: a concrete trailing-slash and trailing-backslash read
both collapsing to the plain read. -/
theorem read_trailing_separator_witness :
    readStored ⟨"/r", ""⟩ ⟨[], []⟩ (some { path := some ("img.png" ++ slashStr) })
        = readStored ⟨"/r", ""⟩ ⟨[], []⟩ (some { path := some ("img.png") }) ∧
    readStored ⟨"/r", ""⟩ ⟨[], []⟩ (some { path := some ("img.png" ++ backslashStr) })
        = readStored ⟨"/r", ""⟩ ⟨[], []⟩ (some { path := some ("img.png") }) :=
  read_trailing_separator ⟨"/r", ""⟩ ⟨[], []⟩ ("img.png") (by decide) (by decide)

/-- C8 counterexample: for the path `a\` (ending in a backslash) the
claim fails: `read({path: "a\/"})` strips the slash and reads the file
`a\`, while `read({path: "a\"})` strips the backslash and reads `a`,
so the two calls do not behave identically. -/
theorem read_trailing_separator_counterexample :
    (readStored ⟨"/r", ""⟩ ⟨[(("/r/a\\"), [7])], []⟩ (some { path := some ("a\\/") })).1
        = Except.ok ([7]) ∧
    (readStored ⟨"/r", ""⟩ ⟨[(("/r/a\\"), [7])], []⟩ (some { path := some ("a\\") })).1
        = Except.error { kind := ErrKind.notFound
                         message := some ("Image not found: a")
                         err := some (WrappedErr.fsErr ⟨codeENOENT⟩) } :=
  ⟨rfl, rfl⟩

/-- C10: `read` leaves the caller's options object mutated: afterwards
`options.path` holds the stripped path (one trailing slash or backslash
removed, or the empty string when the path or the whole argument was
absent); a missing argument or missing path field does not fail but
proceeds exactly like a read of the empty relative path. -/
theorem read_mutates_options (store : LocalFileStore) (fs : FS)
    (options : Option ReadOptions) :
    (readStored store fs options).2 = { path := some (stripTrailing (rawPathOf options)) } ∧
    rawPathOf none = "" ∧
    rawPathOf (some { path := none }) = "" ∧
    readStored store fs none = readStored store fs (some { path := some ("") }) ∧
    readStored store fs (some { path := none }) = readStored store fs (some { path := some ("") }) :=
  ⟨rfl, rfl, rfl, rfl, rfl⟩

/-- C7: `delete` always fails with the fixed bare-string rejection
`not implemented`, which is not one of the typed domain error objects,
and leaves the file system untouched. -/
theorem delete_not_implemented (fs : FS) :
    deleteStored fs = (Except.error (Rejection.rawString notImplementedMsg), fs) ∧
    (deleteStored fs).2 = fs ∧
    Rejection.isTypedDomainError (Rejection.rawString notImplementedMsg) = false :=
  ⟨rfl, rfl, rfl⟩

/-- C6: `exists` never rejects: it resolves to `true` exactly when the
stat of the joined path succeeds, and to `false` for any stat failure;
in particular any error override at that path (for instance `EACCES`) is
swallowed into a resolved `false`. -/
theorem exists_never_rejects (store : LocalFileStore) (fs : FS) (fileName : String)
    (targetDir : Option String) :
    existsCheck store fs fileName targetDir
        = Except.ok (isOkB (statFs fs (existsTarget store.storagePath fileName targetDir))) ∧
    (∀ c, fsLookup fs.errs (existsTarget store.storagePath fileName targetDir) = some c →
      existsCheck store fs fileName targetDir = Except.ok false) := by
  constructor
  · rcases hst : statFs fs (existsTarget store.storagePath fileName targetDir) with e | u
    · simp [existsCheck, isOkB, hst]
    · simp [existsCheck, isOkB, hst]
  · intro c hc
    have hst : statFs fs (existsTarget store.storagePath fileName targetDir)
        = Except.error ⟨c⟩ := by
      unfold statFs
      rw [hc]
    simp [existsCheck, hst]

/-- C6 witness: a permission error on the stat target resolves to
`Except.ok false` rather than a rejection. -/
theorem exists_never_rejects_witness :
    existsCheck ⟨"/r", ""⟩ ⟨[], [(("/r/x"), codeEACCES)]⟩ ("x") none = Except.ok false :=
  (exists_never_rejects ⟨"/r", ""⟩ ⟨[], [(("/r/x"), codeEACCES)]⟩ ("x") none).2
    codeEACCES (by rfl)

/-- C5: the serve callback: no error means `next` is invoked with no
error argument; a 404 yields a NotFoundError carrying the unresolved
path in its property field, a 400 a BadRequestError, a 403 a
NoPermissionError, and any other status a generic storage error
wrapping the original. -/
theorem serve_error_classification :
    serveCallback none = none ∧
    (∀ e : ServeError, e.statusCode = 404 →
      serveCallback (some e) = some { kind := ErrKind.notFound
                                      message := some imageNotFoundMsg
                                      code := some staticFileNotFoundCode
                                      property := some e.path }) ∧
    (∀ e : ServeError, e.statusCode = 400 →
      serveCallback (some e) = some { kind := ErrKind.badRequest
                                      err := some (WrappedErr.serveErr e) }) ∧
    (∀ e : ServeError, e.statusCode = 403 →
      serveCallback (some e) = some { kind := ErrKind.noPermission
                                      err := some (WrappedErr.serveErr e) }) ∧
    (∀ e : ServeError, e.statusCode ≠ 404 → e.statusCode ≠ 400 → e.statusCode ≠ 403 →
      serveCallback (some e) = some { kind := ErrKind.ghost
                                      err := some (WrappedErr.serveErr e) }) := by
  refine ⟨rfl, ?_, ?_, ?_, ?_⟩
  · intro e h
    simp [serveCallback, h]
  · intro e h
    simp [serveCallback, h]
  · intro e h
    simp [serveCallback, h]
  · intro e h1 h2 h3
    simp [serveCallback, h1, h2, h3]

/-- C5 witness: a concrete 404 from the serving primitive becomes a
NotFoundError carrying the unresolved path. -/
theorem serve_error_classification_witness :
    serveCallback (some ⟨404, "/missing.png"⟩)
        = some { kind := ErrKind.notFound
                 message := some imageNotFoundMsg
                 code := some staticFileNotFoundCode
                 property := some ("/missing.png") } :=
  serve_error_classification.2.1 ⟨404, "/missing.png"⟩ rfl

theorem slashStr_data : slashStr.data = ['/'] := rfl

/-- C2: when the underlying file read fails, `read` rejects with the
error produced by the classification branch: `ENOENT`/`ENOTDIR` give a
NotFoundError whose message contains the offending relative path (the
path actually looked up, i.e. the argument after the trailing-separator
strip - equal to the argument itself whenever it carries no trailing
separator); `ENAMETOOLONG` gives a BadRequestError; `EACCES` gives a
NoPermissionError; anything else gives a generic storage error wrapping
the original error, with the offending path in its message. -/
theorem read_error_classification (store : LocalFileStore) (fs : FS) (P : String)
    (e : FsError)
    (hfail : readFile fs (readTarget store.storagePath P) = Except.error e) :
    (readStored store fs (some { path := some P })).1
        = Except.error (classifyReadError (stripTrailing P) e) ∧
    ((e.code = codeENOENT ∨ e.code = codeENOTDIR) →
      (classifyReadError (stripTrailing P) e).kind = ErrKind.notFound ∧
      (classifyReadError (stripTrailing P) e).message
          = some (imageNotFoundWithRef (stripTrailing P)) ∧
      containsSub (stripTrailing P)
          (Option.getD ((classifyReadError (stripTrailing P) e).message) ("")) = true ∧
      (endsWithSlash P = false → endsWithBackslash P = false →
        containsSub P
          (Option.getD ((classifyReadError (stripTrailing P) e).message) ("")) = true)) ∧
    (e.code = codeENAMETOOLONG →
      classifyReadError (stripTrailing P) e
        = { kind := ErrKind.badRequest
            err := some (WrappedErr.fsErr e) }) ∧
    (e.code = codeEACCES →
      classifyReadError (stripTrailing P) e
        = { kind := ErrKind.noPermission
            err := some (WrappedErr.fsErr e) }) ∧
    (e.code ≠ codeENOENT → e.code ≠ codeENOTDIR → e.code ≠ codeENAMETOOLONG →
      e.code ≠ codeEACCES →
      (classifyReadError (stripTrailing P) e).kind = ErrKind.ghost ∧
      (classifyReadError (stripTrailing P) e).err = some (WrappedErr.fsErr e) ∧
      (classifyReadError (stripTrailing P) e).message
          = some (cannotReadImage (stripTrailing P)) ∧
      containsSub (stripTrailing P)
          (Option.getD ((classifyReadError (stripTrailing P) e).message) ("")) = true) := by
  refine ⟨?_, ?_, ?_, ?_, ?_⟩
  · simp only [readStored, rawPathOf]
    rw [hfail]
  · intro h
    have hcl : classifyReadError (stripTrailing P) e
        = { kind := ErrKind.notFound
            err := some (WrappedErr.fsErr e)
            message := some (imageNotFoundWithRef (stripTrailing P)) } := by
      unfold classifyReadError
      rw [if_pos h]
    refine ⟨by rw [hcl], by rw [hcl], ?_, ?_⟩
    · rw [hcl]
      simp only [Option.getD_some]
      unfold imageNotFoundWithRef
      exact containsSub_append imageNotFoundPre (stripTrailing P)
    · intro hs hb
      rw [hcl]
      simp only [Option.getD_some]
      rw [stripTrailing_no_sep P hs hb]
      unfold imageNotFoundWithRef
      exact containsSub_append imageNotFoundPre P
  · intro h
    have hn1 : ¬(e.code = codeENOENT ∨ e.code = codeENOTDIR) := by
      rw [h]
      decide
    unfold classifyReadError
    rw [if_neg hn1, if_pos h]
  · intro h
    have hn1 : ¬(e.code = codeENOENT ∨ e.code = codeENOTDIR) := by
      rw [h]
      decide
    have hn2 : e.code ≠ codeENAMETOOLONG := by
      rw [h]
      decide
    unfold classifyReadError
    rw [if_neg hn1, if_neg hn2, if_pos h]
  · intro h1 h2 h3 h4
    have hn1 : ¬(e.code = codeENOENT ∨ e.code = codeENOTDIR) := fun hor => Or.elim hor h1 h2
    unfold classifyReadError
    rw [if_neg hn1, if_neg h3, if_neg h4]
    refine ⟨rfl, rfl, rfl, ?_⟩
    simp only [Option.getD_some]
    unfold cannotReadImage
    exact containsSub_append cannotReadImagePre (stripTrailing P)

/-- C2 witness: a concrete permission failure on a read becomes a
NoPermissionError wrapping the original error. -/
theorem read_error_classification_witness :
    (readStored ⟨"/r", ""⟩ ⟨[], [(("/r/locked.png"), codeEACCES)]⟩
        (some { path := some ("locked.png") })).1
      = Except.error { kind := ErrKind.noPermission, err := some (WrappedErr.fsErr ⟨codeEACCES⟩) } := by
  have h := read_error_classification ⟨"/r", ""⟩ ⟨[], [(("/r/locked.png"), codeEACCES)]⟩
    ("locked.png") ⟨codeEACCES⟩ (by rfl)
  rw [h.1, h.2.2.2.1 (by rfl)]

theorem replaceSep_head (sep : Char) (s : String) (h : s.data.head? = some '/') :
    (replaceSep sep s).data.head? = some '/' := by
  unfold replaceSep
  rw [strMkData]
  cases hs : s.data with
  | nil => rw [hs] at h; simp at h
  | cons c rest =>
    rw [hs] at h
    simp only [List.head?] at h
    injection h with hc
    subst hc
    by_cases hcs : ('/' : Char) = sep
    · simp [hcs]
    · simp [hcs]

theorem replaceSep_no_sep (sep : Char) (s : String) (h : sep ≠ '/') :
    sep ∉ (replaceSep sep s).data := by
  intro hmem
  unfold replaceSep at hmem
  rw [strMkData, List.mem_map] at hmem
  obtain ⟨a, _, hfa⟩ := hmem
  by_cases hc : a = sep
  · rw [if_pos hc] at hfa
    exact h hfa.symm
  · rw [if_neg hc] at hfa
    exact hc hfa

theorem urlJoin_head (subdir pfx rel : String) :
    (urlJoin subdir pfx rel).data.head? = some '/' := by
  simp [urlJoin, strDataAppend, slashStr_data]

/-- C3: public URLs are forward-slash normalized independently of the
host OS: for any host path separator, the URL computation shared by
`saveRaw` and `save` yields a string that starts with `/` and contains
no occurrence of the host separator other than as `/` itself; and the
URLs returned by successful `saveRaw` and `save` calls are exactly that
computation applied to the relative target. -/
theorem publicUrl_forward_slashes :
    (∀ (sep : Char) (subdir rel : String),
      ((fullUrlFor sep subdir rel).data.head? = some '/') ∧
      (sep = '/' ∨ sep ∉ (fullUrlFor sep subdir rel).data)) ∧
    (∀ (store : LocalFileStore) (fs fs2 : FS) (buffer : Bytes) (targetPath url : String),
      saveRaw store fs buffer targetPath = Except.ok (fs2, url) →
      url = fullUrlFor '/' store.subdir targetPath) ∧
    (∀ (store : LocalFileStore) (gtd : String → String) (guf : Image → String → String)
      (fs fs2 : FS) (image : Image) (targetDir : Option String) (url : String),
      save store gtd guf fs image targetDir = Except.ok (fs2, url) →
      url = fullUrlFor '/' store.subdir
        (posixRelative store.storagePath (guf image (saveTargetDirOf store gtd targetDir)))) := by
  refine ⟨?_, ?_, ?_⟩
  · intro sep subdir rel
    refine ⟨replaceSep_head sep _ (urlJoin_head subdir staticImageUrlPrefix rel), ?_⟩
    by_cases h : sep = '/'
    · exact Or.inl h
    · exact Or.inr (replaceSep_no_sep sep _ h)
  · intro store fs fs2 buffer targetPath url hsave
    unfold saveRaw at hsave
    rcases hw : writeFile fs (saveRawTarget store.storagePath targetPath) buffer with e | fs3
    · rw [hw] at hsave
      simp at hsave
    · rw [hw] at hsave
      simp only at hsave
      injection hsave with hpair
      have hsnd := congrArg Prod.snd hpair
      simpa using hsnd.symm
  · intro store gtd guf fs fs2 image targetDir url hsave
    unfold save at hsave
    rcases hw : copyFile fs image.path (guf image (saveTargetDirOf store gtd targetDir))
        with e | fs3
    · rw [hw] at hsave
      simp at hsave
    · rw [hw] at hsave
      simp only at hsave
      injection hsave with hpair
      have hsnd := congrArg Prod.snd hpair
      simpa using hsnd.symm

/-- C3 witness: on a Windows-style separator the URL for a
backslash-ridden relative path still starts with `/` and contains no
backslash. -/
theorem publicUrl_forward_slashes_witness :
    (fullUrlFor '\\' ("blog") ("2024\\x.jpg")).data.head? = some '/' ∧
    ('\\' : Char) ∉ (fullUrlFor '\\' ("blog") ("2024\\x.jpg")).data := by
  have h := publicUrl_forward_slashes.1 '\\' ("blog") ("2024\\x.jpg")
  refine ⟨h.1, ?_⟩
  rcases h.2 with h2 | h2
  · exact absurd h2 (by decide)
  · exact h2

/-- C4 (amended): the file-system paths accessed by `saveRaw`, `read`
and `exists` (the latter with its default target directory) stay
confined inside the storage root provided the effective relative path -
for `read`, the path after the trailing-separator strip - contains no
`..` segment; the storage root is assumed to be a normalized absolute
path, given here by its nonempty list of clean segments.  Without the
no-`..` restriction the claim is false, see the counterexample. -/
theorem storage_confinement (rootSegs : List (List Char)) (root : String)
    (hroot : root.data = '/' :: joinSegs rootSegs)
    (hne : rootSegs ≠ [])
    (hclean : ∀ s ∈ rootSegs, s ≠ [] ∧ s ≠ dotSeg ∧ s ≠ dotDotSeg ∧ ∀ c ∈ s, c ≠ '/')
    (targetPath relPath fileName : String)
    (h1 : hasDotDot targetPath = false)
    (h2 : hasDotDot (stripTrailing relPath) = false)
    (h3 : hasDotDot fileName = false) :
    confined root (saveRawTarget root targetPath) = true ∧
    confined root (readTarget root relPath) = true ∧
    confined root (existsTarget root fileName none) = true := by
  refine ⟨?_, ?_, ?_⟩
  · exact confined_posixJoin rootSegs root hroot hne hclean targetPath h1
  · exact confined_posixJoin rootSegs root hroot hne hclean (stripTrailing relPath) h2
  · exact confined_posixJoin rootSegs root hroot hne hclean fileName h3

/-- C4 witness: concrete traversal-free paths stay confined under the
root `/v/w`. -/
theorem storage_confinement_witness :
    confined ("/v/w") (saveRawTarget ("/v/w") ("2024/a.jpg")) = true ∧
    confined ("/v/w") (readTarget ("/v/w") ("b/c.png")) = true ∧
    confined ("/v/w") (existsTarget ("/v/w") ("d.gif") none) = true :=
  storage_confinement ([['v'], ['w']]) ("/v/w") (by rfl) (by decide) (by decide)
    ("2024/a.jpg") ("b/c.png") ("d.gif") (by rfl) (by rfl) (by rfl)

/-- C4 counterexample: a caller-supplied relative path with `..`
segments escapes the root: reading `../../../etc/passwd` under the root
`/v/w` accesses `/etc/passwd`, which is not confined, and the read
returns that outside file's bytes. -/
theorem storage_confinement_counterexample :
    confined ("/v/w") (readTarget ("/v/w") ("../../../etc/passwd")) = false ∧
    (readStored ⟨"/v/w", ""⟩ ⟨[(("/etc/passwd"), [9, 9])], []⟩
        (some { path := some ("../../../etc/passwd") })).1 = Except.ok ([9, 9]) :=
  ⟨rfl, rfl⟩

/-- C9: a successful `save` copies - does not move - the source bytes:
the destination resolved by the unique-filename helper holds exactly the
source file's bytes, the source entry and every other path are left
untouched, the error table is unchanged, and the returned URL is the
public-URL computation applied to the destination taken relative to the
storage root. -/
theorem save_copies_not_moves (store : LocalFileStore) (gtd : String → String)
    (guf : Image → String → String) (fs fs2 : FS) (image : Image)
    (targetDir : Option String) (url : String)
    (hsave : save store gtd guf fs image targetDir = Except.ok (fs2, url)) :
    ∃ bytes,
      readFile fs image.path = Except.ok bytes ∧
      fsLookup fs2.files (guf image (saveTargetDirOf store gtd targetDir)) = some bytes ∧
      image.path ≠ guf image (saveTargetDirOf store gtd targetDir) ∧
      fsLookup fs2.files image.path = fsLookup fs.files image.path ∧
      (∀ q, q ≠ guf image (saveTargetDirOf store gtd targetDir) →
        fsLookup fs2.files q = fsLookup fs.files q) ∧
      fs2.errs = fs.errs ∧
      url = fullUrlFor '/' store.subdir
        (posixRelative store.storagePath (guf image (saveTargetDirOf store gtd targetDir))) := by
  unfold save at hsave
  rcases hw : copyFile fs image.path (guf image (saveTargetDirOf store gtd targetDir))
      with e | fs3
  · rw [hw] at hsave
    simp at hsave
  · rw [hw] at hsave
    simp only at hsave
    injection hsave with hpair
    have hfs2 : fs2 = fs3 := by
      have hfst := congrArg Prod.fst hpair
      simpa using hfst.symm
    have hurl : url = fullUrlFor '/' store.subdir
        (posixRelative store.storagePath
          (guf image (saveTargetDirOf store gtd targetDir))) := by
      have hsnd := congrArg Prod.snd hpair
      simpa using hsnd.symm
    subst hfs2
    unfold copyFile at hw
    by_cases hsd : image.path = guf image (saveTargetDirOf store gtd targetDir)
    · rw [if_pos hsd] at hw
      simp at hw
    · rw [if_neg hsd] at hw
      rcases hr : readFile fs image.path with e2 | b
      · rw [hr] at hw
        simp at hw
      · rw [hr] at hw
        simp only at hw
        obtain ⟨hfs3, _⟩ := writeFile_ok fs fs2 _ b hw
        subst hfs3
        exact ⟨b, rfl, fsLookup_cons_self _ _ _, hsd,
          fsLookup_cons_ne _ _ _ _ (fun hh => hsd hh.symm),
          fun q hq => fsLookup_cons_ne _ _ _ _ (fun hh => hq hh.symm),
          rfl, hurl⟩

/-- C9 witness: a concrete save copies the upload's bytes to the unique
destination, leaves the upload in place, and returns its public URL. -/
theorem save_copies_not_moves_witness :
    ∃ bytes,
      readFile ⟨[(("/tmp/upload"), [5])], []⟩ ("/tmp/upload") = Except.ok bytes ∧
      fsLookup [(("/r/2024/i.png"), ([5] : Bytes)), (("/tmp/upload"), [5])] ("/r/2024/i.png")
          = some bytes ∧
      ("/tmp/upload" : String) ≠ "/r/2024/i.png" ∧
      fsLookup [(("/r/2024/i.png"), ([5] : Bytes)), (("/tmp/upload"), [5])] ("/tmp/upload")
          = fsLookup [(("/tmp/upload"), ([5] : Bytes))] ("/tmp/upload") ∧
      (∀ q, q ≠ "/r/2024/i.png" →
        fsLookup [(("/r/2024/i.png"), ([5] : Bytes)), (("/tmp/upload"), [5])] q
          = fsLookup [(("/tmp/upload"), ([5] : Bytes))] q) ∧
      ([] : List (String × String)) = [] ∧
      ("/content/images/2024/i.png" : String)
        = fullUrlFor '/' ("") (posixRelative ("/r") ("/r/2024/i.png")) := by
  exact save_copies_not_moves ⟨"/r", ""⟩ (fun _ => ("/r/2024")) (fun _ _ => ("/r/2024/i.png"))
    ⟨[(("/tmp/upload"), [5])], []⟩ ⟨[(("/r/2024/i.png"), [5]), (("/tmp/upload"), [5])], []⟩
    ⟨"/tmp/upload", "img.png"⟩ none ("/content/images/2024/i.png") (by rfl)
